import Mathlib

/-!
Verification of the reflectance / material-parametrization core
(`parametrizations/brdf.py`, `parametrizations/materials.py`).

Part 1 embeds the material-parametrization layer (`materials.py`) over exact
rationals: tensors are matrices `List (List ℚ)` carried in a `Ten` record that
also tracks the storage identity (for aliasing/independence of clones) and the
`requires_grad` flag (attached-as-parameter state).  The nested parameter
dictionary of `BaseSpecularMaterials` is the tree type `PTree`, matching the
recursive dict helpers `detach_and_clone_dict_recursive` / `attach_dict_recursive`.
Division follows IEEE where the source relies on it: a separate value domain
`QFloat` records NaN / infinities produced by `div_` on degenerate rows.

Part 2 embeds the BRDF evaluation layer (`brdf.py`) over the reals, scalar
cell by scalar cell (the torch code is elementwise on the cells we study),
with `RFloat` recording NaN / infinities where the source divides tensors
(`CTs = ... / (4 * np.pi * NdotLs * NdotVs)` and the guard `CTs[CTs != CTs] = 0`).
Functions of the source that crash (NameError / TypeError / AttributeError)
are embedded as `Except PyErr` values.
-/

/-- Python exception outcomes used by the embedded functions. -/
inductive PyErr where
  | nameError (msg : String)
  | typeError (msg : String)
  | attrError (msg : String)
  deriving DecidableEq, Repr

/-- IEEE-style value domain over exact rationals: a finite value, the two
infinities, or NaN.  Used where `materials.py` divides tensors in place. -/
inductive QFloat where
  | fin (q : ℚ)
  | pinf
  | ninf
  | nan
  deriving DecidableEq, Repr

/-- IEEE division on rationals: `0/0 = NaN`, `x/0 = ±Inf` for `x ≠ 0`,
ordinary division otherwise (operands here are always finite). -/
def qdivF (a b : ℚ) : QFloat :=
  if b = 0 then (if a = 0 then QFloat.nan else if 0 < a then QFloat.pinf else QFloat.ninf)
  else QFloat.fin (a / b)

/-- Embeds `clamp_(min=0., max=1.)` on a rational scalar. -/
def clamp01Q (q : ℚ) : ℚ := min (max q 0) 1

/-- Embeds lines 159-160 of `materials.py` on one row of `base_weights.data`:
`clamp_(min=0., max=1.)` followed by `div_` by the row sum (`sum(dim=-1,
keepdim=True)`), with IEEE division semantics for a zero row sum. -/
def rowClampRenorm (row : List ℚ) : List QFloat :=
  let cl := row.map clamp01Q
  cl.map (fun q => qdivF q cl.sum)

/-- A torch tensor of rank 2 over exact rationals: `sid` is the identity of its
storage (clones get a fresh one), `data` its values, `grad` its
`requires_grad` flag (`true` for `torch.nn.Parameter`s). -/
structure Ten where
  sid : ℕ
  data : List (List ℚ)
  grad : Bool
  deriving DecidableEq, Repr

mutual
/-- A nested parameter dictionary: a tensor leaf or a string-keyed mapping,
the only nesting `detach_and_clone_dict_recursive` / `attach_dict_recursive`
support. -/
inductive PTree where
  | leaf (t : Ten)
  | node (entries : PForest)
  deriving Repr

/-- The entry list of a `PTree.node` (a dict as an association sequence). -/
inductive PForest where
  | nil
  | cons (key : String) (val : PTree) (rest : PForest)
  deriving Repr
end

mutual
/-- Embeds `detach_and_clone_dict_recursive`: every tensor value is replaced by
`value.detach().clone()` — fresh storage, same data, `requires_grad = False`.
The counter `n` supplies fresh storage identities. -/
def detachCloneTree : PTree → ℕ → PTree × ℕ
  | PTree.leaf t, n => (PTree.leaf ⟨n, t.data, false⟩, n + 1)
  | PTree.node f, n =>
      let p := detachCloneForest f n
      (PTree.node p.1, p.2)

/-- Forest part of `detach_and_clone_dict_recursive`. -/
def detachCloneForest : PForest → ℕ → PForest × ℕ
  | PForest.nil, n => (PForest.nil, n)
  | PForest.cons k t r, n =>
      let p := detachCloneTree t n
      let q := detachCloneForest r p.2
      (PForest.cons k p.1 q.1, q.2)
end

mutual
/-- Embeds `attach_dict_recursive`: every tensor value is wrapped as
`torch.nn.Parameter(value)` — same storage, `requires_grad = True`. -/
def attachTree : PTree → PTree
  | PTree.leaf t => PTree.leaf { t with grad := true }
  | PTree.node f => PTree.node (attachForest f)

/-- Forest part of `attach_dict_recursive`. -/
def attachForest : PForest → PForest
  | PForest.nil => PForest.nil
  | PForest.cons k t r => PForest.cons k (attachTree t) (attachForest r)
end

mutual
/-- Forgets storage identity and grad flag, keeping keys and numeric data:
two trees with equal erasure hold bit-for-bit identical values. -/
def eraseTree : PTree → PTree
  | PTree.leaf t => PTree.leaf ⟨0, t.data, false⟩
  | PTree.node f => PTree.node (eraseForest f)

/-- Forest part of the value erasure. -/
def eraseForest : PForest → PForest
  | PForest.nil => PForest.nil
  | PForest.cons k t r => PForest.cons k (eraseTree t) (eraseForest r)
end

mutual
/-- All storage identities appearing in a tree. -/
def treeIds : PTree → List ℕ
  | PTree.leaf t => [t.sid]
  | PTree.node f => forestIds f

/-- All storage identities appearing in a forest. -/
def forestIds : PForest → List ℕ
  | PForest.nil => []
  | PForest.cons _ t r => treeIds t ++ forestIds r
end

mutual
/-- All `requires_grad` flags appearing in a tree. -/
def treeGrads : PTree → List Bool
  | PTree.leaf t => [t.grad]
  | PTree.node f => forestGrads f

/-- All `requires_grad` flags appearing in a forest. -/
def forestGrads : PForest → List Bool
  | PForest.nil => []
  | PForest.cons _ t r => treeGrads t ++ forestGrads r
end

/-- Dot product of two rational vectors. -/
def dotQ (a b : List ℚ) : ℚ := (List.zipWith (· * ·) a b).sum

/-- Column `j` of a rational matrix. -/
def colQ (B : List (List ℚ)) (j : ℕ) : List ℚ := B.map (fun r => r.getD j 0)

/-- Matrix product `A @ B` on row-major rational matrices. -/
def matMul (A B : List (List ℚ)) : List (List ℚ) :=
  A.map (fun row => (List.range B.headI.length).map (fun j => dotQ row (colQ B j)))

/-- The dictionary `get_brdf_parameters` returns: the owned diffuse tensor and,
per specular field, the computed matrix `base_weights @ basis`. -/
structure BrdfOut where
  diffuse : Ten
  specular : List (String × List (List ℚ))
  deriving DecidableEq, Repr

/-- Runtime state of a `BaseSpecularMaterials` instance: the mixture-weight
parameter `base_weights`, the nested basis dictionary `brdf_parameters`, and
the single-entry `lru_cache(maxsize=1)` sitting on `get_brdf_parameters`
(keyed on the instance, hence at most one stored result). -/
structure MState where
  base_weights : Ten
  brdf_parameters : PTree
  cache : Option BrdfOut

/-- Dict lookup on a forest (Python `d[key]`). -/
def forestLookup : PForest → String → Option PTree
  | PForest.nil, _ => none
  | PForest.cons k t r, key => if k = key then some t else forestLookup r key

/-- Data of a leaf (the states we study store tensors at the accessed keys). -/
def leafTen : PTree → Ten
  | PTree.leaf t => t
  | PTree.node _ => ⟨0, [], false⟩

/-- Per specular field, `base_weights @ basis` (line 145 of `materials.py`). -/
def mixForest (w : List (List ℚ)) : PForest → List (String × List (List ℚ))
  | PForest.nil => []
  | PForest.cons k t r => (k, matMul w (leafTen t).data) :: mixForest w r

/-- The uncached body of `BaseSpecularMaterials.get_brdf_parameters`
(lines 139-149 of `materials.py`). -/
def computeBrdfParameters (s : MState) : BrdfOut :=
  { diffuse :=
      match s.brdf_parameters with
      | PTree.node es =>
          match forestLookup es "diffuse" with
          | some t => leafTen t
          | none => ⟨0, [], false⟩
      | PTree.leaf _ => ⟨0, [], false⟩
    specular :=
      match s.brdf_parameters with
      | PTree.node es =>
          match forestLookup es "specular" with
          | some (PTree.node f) => mixForest s.base_weights.data f
          | _ => []
      | PTree.leaf _ => [] }

/-- Embeds `@lru_cache(maxsize=1) get_brdf_parameters`: on a hit the stored
dictionary is returned unchanged; on a miss the body runs and its result is
stored.  Nothing in `materials.py` ever clears this cache. -/
def getBrdfParameters (s : MState) : BrdfOut × MState :=
  match s.cache with
  | some o => (o, s)
  | none =>
      let o := computeBrdfParameters s
      (o, { s with cache := some o })

/-- An in-place update of `base_weights.data` (an optimizer step or any other
`.data` mutation).  The `lru_cache` is keyed on the instance alone, so the
cached entry survives such a mutation untouched. -/
def setWeightsData (s : MState) (m : List (List ℚ)) : MState :=
  { s with base_weights := { s.base_weights with data := m } }

/-- Builds the `brdf_parameters` dict exactly as `initialize` shapes it:
`{diffuse: tensor, specular: {name: tensor, ...}}`. -/
def leavesForest : List (String × Ten) → PForest
  | [] => PForest.nil
  | (k, t) :: r => PForest.cons k (PTree.leaf t) (leavesForest r)

/-- The two-level dictionary owned by an initialized `BaseSpecularMaterials`. -/
def mkBrdfTree (diffuse : Ten) (specular : List (String × Ten)) : PTree :=
  PTree.node (PForest.cons "diffuse" (PTree.leaf diffuse)
    (PForest.cons "specular" (PTree.node (leavesForest specular)) PForest.nil))

/-- Embeds `BaseSpecularMaterials.enforce_parameter_bounds` (lines 158-161):
the weight rows are clamped to `[0,1]` and divided by their row sums in place;
the final statement then evaluates
`self.brdf_parametrization.enforce_brdf_parameter_bounds`, an attribute that no
reflectance-model class defines (the interface method declared in `brdf.py` and
in the spec contract is `enforce_parameter_bounds`), so an `AttributeError` is
raised after the weight mutation and the basis bounds are never enforced. -/
def enforceParameterBoundsBSM (s : MState) : List (List QFloat) × PyErr :=
  (s.base_weights.data.map rowClampRenorm,
   PyErr.attrError "enforce_brdf_parameter_bounds")

/-- Effect of `base_weights.detach().clone()`: fresh storage, same data,
`requires_grad = False`. -/
def detachCloneTen (t : Ten) (n : ℕ) : Ten := ⟨n, t.data, false⟩

/-- Effect of `torch.nn.Parameter(t)`: same storage, `requires_grad = True`. -/
def mkParamTen (t : Ten) : Ten := { t with grad := true }

/-- Embeds `BaseSpecularMaterials.serialize` (line 164): a detached clone of the
mixture weights paired with `detach_and_clone_dict_recursive(brdf_parameters)`.
`n` supplies the fresh storage identities. -/
def serializeBSM (s : MState) (n : ℕ) : (Ten × PTree) × ℕ :=
  let w := detachCloneTen s.base_weights n
  let p := detachCloneTree s.brdf_parameters (n + 1)
  ((w, p.1), p.2)

/-- Embeds `BaseSpecularMaterials.deserialize` (lines 167-168): the weights
become `torch.nn.Parameter(args[0])` and the dictionary
`attach_dict_recursive(args[1])`.  The method does not touch the cache. -/
def deserializeBSM (s : MState) (args : Ten × PTree) : MState :=
  { s with base_weights := mkParamTen args.1, brdf_parameters := attachTree args.2 }

/-- All storage identities owned by a state. -/
def stateIds (s : MState) : List ℕ := s.base_weights.sid :: treeIds s.brdf_parameters

/-- IEEE-style value domain over exact reals, for the places `brdf.py` relies
on float NaN/Inf semantics. -/
inductive RFloat where
  | fin (x : ℝ)
  | pinf
  | ninf
  | nan

/-- IEEE division producing an `RFloat` from two (finite) real operands:
`0/0 = NaN`, `x/0 = ±Inf` for `x ≠ 0`, ordinary division otherwise. -/
noncomputable def fdivR (a b : ℝ) : RFloat :=
  if b = 0 then (if a = 0 then RFloat.nan else if 0 < a then RFloat.pinf else RFloat.ninf)
  else RFloat.fin (a / b)

/-- Adding a finite real to an `RFloat` (the `p_diffuse/π + CTs` step). -/
def faddR (a : ℝ) : RFloat → RFloat
  | RFloat.fin x => RFloat.fin (a + x)
  | RFloat.pinf => RFloat.pinf
  | RFloat.ninf => RFloat.ninf
  | RFloat.nan => RFloat.nan

/-- Embeds the guard `CTs[CTs != CTs] = 0` on one entry: float `!=` holds only
for NaN (infinities compare equal to themselves), so exactly the NaN entries
are overwritten with 0. -/
def nanGuard : RFloat → RFloat
  | RFloat.nan => RFloat.fin 0
  | x => x

/-- Holds when an `RFloat` carries an ordinary finite value. -/
def RFloat.isFinite : RFloat → Prop
  | RFloat.fin _ => True
  | _ => False

/-- Embeds `clamp_(min=0.0, max=1.0)` on a real scalar. -/
noncomputable def clamp01R (x : ℝ) : ℝ := min (max x 0) 1

/-- Modelled from the spec: `utils.vectors.inner_product` is not under `src/`;
per the spec the shared numeric utilities are the vector inner product and
normalization, so the inner product of two direction vectors is their dot
product. -/
def innerProdR (a b : List ℝ) : ℝ := (List.zipWith (· * ·) a b).sum

/-- Modelled from the spec: `utils.vectors.normalize` is not under `src/`;
per the spec the half-vector is `normalize(L + V)`, so `normalize` divides a
vector by its Euclidean norm. -/
noncomputable def normalizeR (v : List ℝ) : List ℝ :=
  v.map (fun x => x / Real.sqrt (innerProdR v v))

/-- Componentwise vector sum (`Ls + Vs` with `Vs` broadcast over lights). -/
def vaddR (a b : List ℝ) : List ℝ := List.zipWith (· + ·) a b

/-- Embeds `BrdfParametrization._calculate_NdotHs`: per point and light the
normalized half-vector `normalize(L + V)` and its inner product with the
normal.  Returns the pair `(Hs, NdotHs)`. -/
noncomputable def calculateNdotHs (Ls : List (List (List ℝ))) (Vs normals : List (List ℝ)) :
    List (List (List ℝ)) × List (List ℝ) :=
  let Hs := List.zipWith (fun Lrow V => Lrow.map (fun L => normalizeR (vaddR L V))) Ls Vs
  let NdotHs := List.zipWith (fun n Hrow => Hrow.map (fun H => innerProdR n H)) normals Hs
  (Hs, NdotHs)

/-- Parameter dictionary for `Diffuse.calculate_rhos` (only `diffuse` is read). -/
structure DiffuseParams where
  diffuse : List (List ℝ)

/-- Embeds `Diffuse.calculate_rhos` (lines 86-90 of `brdf.py`): computes the
half-vector cosines, and returns `parameters['diffuse'].view(-1, 1, 3) / np.pi`
— one broadcast row per point (shape N×1×3) — together with `NdotHs`. -/
noncomputable def diffuseCalculateRhos (Ls : List (List (List ℝ))) (Vs normals : List (List ℝ))
    (parameters : DiffuseParams) : List (List (List ℝ)) × List (List ℝ) :=
  let NdotHs := (calculateNdotHs Ls Vs normals).2
  let rhos := parameters.diffuse.map (fun d => [d.map (fun x => x / Real.pi)])
  (rhos, NdotHs)

/-- Embeds `SmithG1` (lines 187-216 of `brdf.py`) on one scalar cell: the input
cosine is clamped in place to `[0,1]`, then the rational approximation in
`x = cot(θ)/roughness` is evaluated, with the two masked overrides
`Gs[sin_thetas == 0] = 1.0` and then `Gs[prelims >= 1.6] = 1.0` (the later
assignment wins where both masks hold). -/
noncomputable def SmithG1 (NdotW p_roughness : ℝ) : ℝ :=
  let cos := clamp01R NdotW
  let sin := Real.sqrt (1 - cos ^ 2)
  let cot := cos / sin
  let prelims := cot / p_roughness
  let Gs := (3.535 * prelims + 2.181 * prelims ^ 2) /
    (1 + 2.276 * prelims + 2.577 * prelims ^ 2)
  if 1.6 ≤ prelims then 1 else if sin = 0 then 1 else Gs

/-- Embeds `GTR` (lines 162-184 of `brdf.py`) on one scalar cell, for the
default exponent `gamma = 1` used by `CookTorrance.calculate_rhos`:
`cs = (α²−1)/ln(α²)`, `D = cs / (1 + (α²−1)·cos²NH)` with `cos²NH` clamped to
`[0,1]` (here `α` is the `p_roughness` argument). -/
noncomputable def GTR (NdotH p_roughness : ℝ) : ℝ :=
  let cosNH2 := clamp01R (NdotH ^ 2)
  let p_roughness2 := p_roughness ^ 2
  let cs := (p_roughness2 - 1) / Real.log p_roughness2
  cs / (1 + (p_roughness2 - 1) * cosNH2)

/-- Embeds `Fresnel` (lines 105-137 of `brdf.py`) on one scalar cell: the
shortcut `cos_mat = sqrt(cos_env² + η² − 1)/η`, the two polarization
reflectances, and their squared average. -/
noncomputable def Fresnel (NdotL p_eta : ℝ) : ℝ :=
  let cos_env := NdotL
  let cos_mat := Real.sqrt (cos_env ^ 2 + p_eta ^ 2 - 1) / p_eta
  let r_p := (p_eta * cos_env - cos_mat) / (p_eta * cos_env + cos_mat)
  let r_s := (cos_env - p_eta * cos_mat) / (cos_env + p_eta * cos_mat)
  (r_p ^ 2 + r_s ^ 2) / 2

/-- Embeds one scalar cell of the Cook-Torrance specular term (lines 232-246 of
`brdf.py`) for one point, light and color channel: roughness is squared before
use, `F` is the Fresnel term when `eta` is present and `1.` otherwise, `D` the
GTR distribution, `G` the product of the two Smith factors.  `SmithG1` clamps
`NdotLs` and `NdotVs` in place (`clamp_`), so the denominator
`4·π·NdotLs·NdotVs` on line 246 reads the clamped cosines.  The division is
the IEEE tensor division. -/
noncomputable def cookTorranceCT (NdotL NdotV NdotH VdotH albedo_c roughness : ℝ)
    (eta : Option ℝ) : RFloat :=
  let p_roughness := roughness ^ 2
  let Fs := match eta with
    | some p_eta => Fresnel VdotH p_eta
    | none => 1
  let Ds := GTR NdotH p_roughness
  let NdotL2 := clamp01R NdotL
  let NdotV2 := clamp01R NdotV
  let Gs := SmithG1 NdotL2 p_roughness * SmithG1 NdotV2 p_roughness
  fdivR (albedo_c * (Fs * Ds * Gs)) (4 * Real.pi * (NdotL2 * NdotV2))

/-- Embeds one scalar cell of `CookTorrance.calculate_rhos` lines 246-251: the
specular term is passed through the NaN guard `CTs[CTs != CTs] = 0` and added
to `p_diffuse/π`. -/
noncomputable def cookTorranceRho (NdotL NdotV NdotH VdotH albedo_c diffuse_c roughness : ℝ)
    (eta : Option ℝ) : RFloat :=
  faddR (diffuse_c / Real.pi)
    (nanGuard (cookTorranceCT NdotL NdotV NdotH VdotH albedo_c roughness eta))

/-- Parameter dictionary for the Cook-Torrance models: `diffuse` N×3,
`specular.albedo` N×3, `specular.roughness` N×1, optional `specular.eta` N×1. -/
structure CTParams where
  diffuse : List (List ℝ)
  albedo : List (List ℝ)
  roughness : List (List ℝ)
  eta : Option (List (List ℝ))

/-- Embeds `CookTorrance.get_parameter_count` (line 256). -/
def cookTorranceParameterCount : ℕ × List (String × ℕ) :=
  (3, [("albedo", 3), ("roughness", 1), ("eta", 1)])

/-- Embeds `CookTorrance.enforce_parameter_bounds` (lines 258-263): the method
signature binds the argument as `parameters`, but every statement of the body
reads the undefined name `params`, so the very first statement raises
`NameError` before any clamping happens. -/
def cookTorranceEnforceParameterBounds (parameters : CTParams) : Except PyErr Unit :=
  Except.error (PyErr.nameError "name params is not defined")

/-- Embeds `CookTorranceF1.get_parameter_count` (line 281). -/
def cookTorranceF1ParameterCount : ℕ × List (String × ℕ) :=
  (3, [("albedo", 3), ("roughness", 1)])

/-- Embeds `CookTorranceF1.calculate_rhos` (lines 273-278): the body evaluates
`CookTorrance.calculate_rhos(Ls, Vs, normals)` — an unbound function of five
parameters `(self, Ls, Vs, normals, parameters)` called with three positional
arguments — so Python raises `TypeError` before any computation. -/
def cookTorranceF1CalculateRhos (Ls : List (List (List ℝ))) (Vs normals : List (List ℝ))
    (parameters : CTParams) :
    Except PyErr (List (List (List RFloat)) × List (List ℝ)) :=
  Except.error (PyErr.typeError
    "calculate_rhos missing 2 required positional arguments: normals and parameters")

/-- Concrete `BaseSpecularMaterials` instance: one point, two bases, weights
`[[1, 0]]`, one specular field `albedo` with basis rows `[2,2,2]` and `[3,3,3]`,
empty cache. -/
def c5state : MState :=
  { base_weights := ⟨0, [[1, 0]], true⟩
    brdf_parameters := mkBrdfTree ⟨1, [[9, 9, 9]], true⟩
      [("albedo", ⟨2, [[2, 2, 2], [3, 3, 3]], true⟩)]
    cache := none }

/-- Concrete `BaseSpecularMaterials` instance used for the serialization
round trip: weights `[[1/2, 1/2]]`, diffuse `[[9, 9, 9]]`, one `albedo` basis. -/
def c7state : MState :=
  { base_weights := ⟨0, [[1/2, 1/2]], true⟩
    brdf_parameters := mkBrdfTree ⟨1, [[9, 9, 9]], true⟩
      [("albedo", ⟨2, [[2, 2, 2], [3, 3, 3]], true⟩)]
    cache := none }

section MaterialLemmas

theorem clamp01Q_nonneg (q : ℚ) : 0 ≤ clamp01Q q := by
  unfold clamp01Q
  rcases le_or_lt (max q 0) 1 with h | h
  · rw [min_eq_left h]; exact le_max_right q 0
  · rw [min_eq_right h.le]; norm_num

theorem clamp01Q_le_one (q : ℚ) : clamp01Q q ≤ 1 := min_le_right _ _

theorem clamp01Q_of_nonpos {q : ℚ} (h : q ≤ 0) : clamp01Q q = 0 := by
  unfold clamp01Q
  rw [max_eq_right h]
  norm_num

theorem clamp01Q_pos {q : ℚ} (h : 0 < q) : 0 < clamp01Q q := by
  unfold clamp01Q
  exact lt_min (lt_max_of_lt_left h) one_pos

theorem sum_map_div_eq (l : List ℚ) (c : ℚ) :
    (l.map (fun x => x / c)).sum = l.sum / c := by
  induction l with
  | nil => simp
  | cons a t ih => simp [ih, add_div]

/-- On a row whose entries are all non-positive, clamping zeroes the row, the
row sum is zero, and the in-place division turns every entry into NaN. -/
theorem rowClampRenorm_all_nan {row : List ℚ} (h : ∀ q ∈ row, q ≤ 0) :
    ∀ v ∈ rowClampRenorm row, v = QFloat.nan := by
  intro v hv
  unfold rowClampRenorm at hv
  have hcl : ∀ q ∈ row.map clamp01Q, q = 0 := by
    intro q hq
    rcases List.mem_map.mp hq with ⟨x, hx, rfl⟩
    exact clamp01Q_of_nonpos (h x hx)
  have hsum : (row.map clamp01Q).sum = 0 := List.sum_eq_zero hcl
  rcases List.mem_map.mp hv with ⟨q, hq, rfl⟩
  rw [hcl q hq, hsum]
  simp [qdivF]

/-- On a row with a strictly positive entry, the clamped row sums to a positive
value and the renormalized row is finite, entrywise in `[0,1]`, and sums to 1. -/
theorem rowClampRenorm_simplex {row : List ℚ} (h : ∃ q ∈ row, 0 < q) :
    ∃ qs : List ℚ, rowClampRenorm row = qs.map QFloat.fin ∧
      qs.sum = 1 ∧ ∀ q ∈ qs, 0 ≤ q ∧ q ≤ 1 := by
  rcases h with ⟨q0, hq0, hq0pos⟩
  have hclpos : 0 < clamp01Q q0 := clamp01Q_pos hq0pos
  have hmem : clamp01Q q0 ∈ row.map clamp01Q := List.mem_map_of_mem _ hq0
  have hnonneg : ∀ x ∈ row.map clamp01Q, 0 ≤ x := by
    intro x hx
    rcases List.mem_map.mp hx with ⟨y, _, rfl⟩
    exact clamp01Q_nonneg y
  have hsumpos : 0 < (row.map clamp01Q).sum :=
    lt_of_lt_of_le hclpos (List.single_le_sum hnonneg _ hmem)
  refine ⟨(row.map clamp01Q).map (fun q => q / (row.map clamp01Q).sum), ?_, ?_, ?_⟩
  · unfold rowClampRenorm
    simp only [List.map_map]
    apply List.map_congr_left
    intro a _
    simp only [Function.comp_apply, qdivF, if_neg hsumpos.ne']
  · rw [sum_map_div_eq, div_self hsumpos.ne']
  · intro q hq
    rcases List.mem_map.mp hq with ⟨x, hx, rfl⟩
    constructor
    · exact div_nonneg (hnonneg x hx) hsumpos.le
    · rw [div_le_one hsumpos]
      exact List.single_le_sum hnonneg _ hx

end MaterialLemmas

theorem mixForest_leaves (w : List (List ℚ)) (spec : List (String × Ten)) :
    mixForest w (leavesForest spec) =
      spec.map (fun p => (p.1, matMul w p.2.data)) := by
  induction spec with
  | nil => rfl
  | cons a t ih => simp [leavesForest, mixForest, leafTen, ih]

/-- C3: `BaseSpecularMaterials.enforce_parameter_bounds` does not complete: it
clamps and renormalizes the weight rows in place and then raises
`AttributeError`, because it invokes `enforce_brdf_parameter_bounds` on the
reflectance model while the method declared by `BrdfParametrization` (and by
every implementation, and by the spec contract) is `enforce_parameter_bounds`;
the basis parameter dictionary is never projected. -/
theorem enforceParameterBounds_raises_attrError (s : MState) :
    (enforceParameterBoundsBSM s).2 = PyErr.attrError "enforce_brdf_parameter_bounds" ∧
    (enforceParameterBoundsBSM s).1 = s.base_weights.data.map rowClampRenorm := by
  exact ⟨rfl, rfl⟩

/-- C10: the weight renormalization of `enforce_parameter_bounds` divides each
row by its sum with no zero guard.  For a row that is entirely non-positive,
clamping yields the zero row and the division produces NaN in every entry; when
some entry is strictly positive after clamping, the row becomes finite, lies in
`[0,1]` entrywise, and sums to 1. -/
theorem rowRenorm_nan_or_simplex (s : MState) (row : List ℚ)
    (hrow : row ∈ s.base_weights.data) :
    rowClampRenorm row ∈ (enforceParameterBoundsBSM s).1 ∧
    ((∀ q ∈ row, q ≤ 0) → ∀ v ∈ rowClampRenorm row, v = QFloat.nan) ∧
    ((∃ q ∈ row, 0 < q) → ∃ qs : List ℚ, rowClampRenorm row = qs.map QFloat.fin ∧
      qs.sum = 1 ∧ ∀ q ∈ qs, 0 ≤ q ∧ q ≤ 1) := by
  refine ⟨List.mem_map_of_mem _ hrow, ?_, ?_⟩
  · intro h
    exact rowClampRenorm_all_nan h
  · intro h
    exact rowClampRenorm_simplex h

/-- Witness for `rowRenorm_nan_or_simplex` at a concrete instance: the state
`c5state` with weight row `[1, 0]`. -/
theorem rowRenorm_nan_or_simplex_witness :
    [(1 : ℚ), 0] ∈ c5state.base_weights.data ∧
    (rowClampRenorm [(1 : ℚ), 0] ∈ (enforceParameterBoundsBSM c5state).1 ∧
    ((∀ q ∈ [(1 : ℚ), 0], q ≤ 0) → ∀ v ∈ rowClampRenorm [(1 : ℚ), 0], v = QFloat.nan) ∧
    ((∃ q ∈ [(1 : ℚ), 0], 0 < q) → ∃ qs : List ℚ,
      rowClampRenorm [(1 : ℚ), 0] = qs.map QFloat.fin ∧
      qs.sum = 1 ∧ ∀ q ∈ qs, 0 ≤ q ∧ q ≤ 1)) :=
  ⟨by decide, rowRenorm_nan_or_simplex c5state [(1 : ℚ), 0] (by decide)⟩

/-- C5 (amended): the `lru_cache(maxsize=1)` on `get_brdf_parameters` is keyed
on the instance alone and nothing invalidates it, so once a call has filled the
cache, a later call returns the cached dictionary unchanged even after the
weights were mutated in place — not a recomputation from the mutated values. -/
theorem getBrdfParameters_stale_after_mutation (s : MState) (o : BrdfOut) (s' : MState)
    (h : getBrdfParameters s = (o, s')) (m : List (List ℚ)) :
    getBrdfParameters (setWeightsData s' m) = (o, setWeightsData s' m) := by
  unfold getBrdfParameters at h ⊢
  cases hc : s.cache with
  | some c =>
      rw [hc] at h
      obtain ⟨rfl, rfl⟩ := Prod.mk.injEq .. ▸ h
      simp [setWeightsData, hc]
  | none =>
      rw [hc] at h
      obtain ⟨rfl, rfl⟩ := Prod.mk.injEq .. ▸ h
      simp [setWeightsData]

/-- Witness for `getBrdfParameters_stale_after_mutation` on the concrete
instance `c5state`, mutating the weights to `[[0, 1]]` after the first call. -/
theorem getBrdfParameters_stale_after_mutation_witness :
    getBrdfParameters (setWeightsData (getBrdfParameters c5state).2 [[0, 1]]) =
      ((getBrdfParameters c5state).1, setWeightsData (getBrdfParameters c5state).2 [[0, 1]]) :=
  getBrdfParameters_stale_after_mutation c5state _ _ Prod.mk.eta.symm [[0, 1]]

/-- C5 counterexample: after a first call on `c5state` and an in-place weight
mutation to `[[0, 1]]`, the second call still returns the stale specular map
`[2,2,2]` (computed from the old weights `[[1, 0]]`), while recomputing from
the mutated weights gives `[3,3,3]` — refuting the claim that a subsequent call
returns values recomputed from the mutated tensors. -/
theorem getBrdfParameters_not_recomputed_counterexample :
    (getBrdfParameters (setWeightsData (getBrdfParameters c5state).2 [[0, 1]])).1.specular
      = [("albedo", [[2, 2, 2]])] ∧
    (computeBrdfParameters (setWeightsData (getBrdfParameters c5state).2 [[0, 1]])).specular
      = [("albedo", [[3, 3, 3]])] ∧
    [("albedo", [[(2 : ℚ), 2, 2]])] ≠ [("albedo", [[(3 : ℚ), 3, 3]])] := by
  refine ⟨?_, ?_, by decide⟩
  · simp only [c5state, getBrdfParameters, computeBrdfParameters, setWeightsData, mkBrdfTree,
      forestLookup, leavesForest, mixForest, leafTen, matMul, colQ, dotQ, List.headI,
      List.length_cons, List.length_nil]
    simp only [String.reduceEq, reduceIte, mixForest, leafTen]
    simp only [matMul, colQ, dotQ, List.headI, List.length_cons, List.length_nil]
    norm_num [List.range_succ]
  · simp only [c5state, getBrdfParameters, computeBrdfParameters, setWeightsData, mkBrdfTree,
      forestLookup, leavesForest, mixForest, leafTen, matMul, colQ, dotQ, List.headI,
      List.length_cons, List.length_nil]
    simp only [String.reduceEq, reduceIte, mixForest, leafTen]
    simp only [matMul, colQ, dotQ, List.headI, List.length_cons, List.length_nil]
    norm_num [List.range_succ]

/-- C6: on an initialized instance (empty cache) `get_brdf_parameters` returns
the owned diffuse tensor itself and, per specular field, the matrix product
`base_weights @ basis`; with 2 points, 2 bases and one-hot weight rows
`[1,0]` / `[0,1]`, point 0 receives exactly basis 0 and point 1 exactly
basis 1. -/
theorem getBrdfParameters_mixes_bases (d : Ten) (spec : List (String × Ten)) (w : Ten) :
    (getBrdfParameters ⟨w, mkBrdfTree d spec, none⟩).1 =
      ⟨d, spec.map (fun p => (p.1, matMul w.data p.2.data))⟩ ∧
    (getBrdfParameters ⟨⟨0, [[1, 0], [0, 1]], true⟩,
        mkBrdfTree ⟨1, [[9, 9, 9], [8, 8, 8]], true⟩
          [("albedo", ⟨2, [[2, 3, 4], [5, 6, 7]], true⟩),
           ("roughness", ⟨3, [[1/4], [1/9]], true⟩)],
        none⟩).1.specular =
      [("albedo", [[2, 3, 4], [5, 6, 7]]), ("roughness", [[1/4], [1/9]])] := by
  constructor
  · simp only [getBrdfParameters, computeBrdfParameters, mkBrdfTree, forestLookup]
    simp only [String.reduceEq, reduceIte, leafTen, mixForest_leaves]
  · simp only [getBrdfParameters, computeBrdfParameters, mkBrdfTree, forestLookup,
      leavesForest]
    simp only [String.reduceEq, reduceIte, mixForest, leafTen]
    simp only [matMul, colQ, dotQ, List.headI, List.length_cons, List.length_nil]
    norm_num [List.range_succ]

mutual
theorem eraseTree_attach (t : PTree) : eraseTree (attachTree t) = eraseTree t := by
  cases t with
  | leaf x => rfl
  | node f => simp only [attachTree, eraseTree, eraseForest_attach]

theorem eraseForest_attach (f : PForest) : eraseForest (attachForest f) = eraseForest f := by
  cases f with
  | nil => rfl
  | cons k t r => simp only [attachForest, eraseForest, eraseTree_attach, eraseForest_attach]
end

mutual
theorem eraseTree_clone (t : PTree) (n : ℕ) :
    eraseTree (detachCloneTree t n).1 = eraseTree t := by
  cases t with
  | leaf x => rfl
  | node f => simp only [detachCloneTree, eraseTree, eraseForest_clone]

theorem eraseForest_clone (f : PForest) (n : ℕ) :
    eraseForest (detachCloneForest f n).1 = eraseForest f := by
  cases f with
  | nil => rfl
  | cons k t r =>
      simp only [detachCloneForest, eraseForest, eraseTree_clone, eraseForest_clone]
end

mutual
theorem treeGrads_attach (t : PTree) : ∀ b ∈ treeGrads (attachTree t), b = true := by
  cases t with
  | leaf x => intro b hb; simpa [attachTree, treeGrads] using hb
  | node f =>
      intro b hb
      exact forestGrads_attach f b (by simpa [attachTree, treeGrads] using hb)

theorem forestGrads_attach (f : PForest) : ∀ b ∈ forestGrads (attachForest f), b = true := by
  cases f with
  | nil => intro b hb; simp [attachForest, forestGrads] at hb
  | cons k t r =>
      intro b hb
      simp only [attachForest, forestGrads, List.mem_append] at hb
      rcases hb with hb | hb
      · exact treeGrads_attach t b hb
      · exact forestGrads_attach r b hb
end

mutual
theorem treeGrads_clone (t : PTree) (n : ℕ) :
    ∀ b ∈ treeGrads (detachCloneTree t n).1, b = false := by
  cases t with
  | leaf x => intro b hb; simpa [detachCloneTree, treeGrads] using hb
  | node f =>
      intro b hb
      exact forestGrads_clone f n b (by simpa [detachCloneTree, treeGrads] using hb)

theorem forestGrads_clone (f : PForest) (n : ℕ) :
    ∀ b ∈ forestGrads (detachCloneForest f n).1, b = false := by
  cases f with
  | nil => intro b hb; simp [detachCloneForest, forestGrads] at hb
  | cons k t r =>
      intro b hb
      simp only [detachCloneForest, forestGrads, List.mem_append] at hb
      rcases hb with hb | hb
      · exact treeGrads_clone t n b hb
      · exact forestGrads_clone r _ b hb
end

mutual
theorem treeIds_clone_lb (t : PTree) (n : ℕ) :
    (∀ i ∈ treeIds (detachCloneTree t n).1, n ≤ i) ∧ n ≤ (detachCloneTree t n).2 := by
  cases t with
  | leaf x =>
      refine ⟨?_, by simp [detachCloneTree]⟩
      intro i hi
      simp only [detachCloneTree, treeIds, List.mem_singleton] at hi
      omega
  | node f =>
      obtain ⟨h1, h2⟩ := forestIds_clone_lb f n
      exact ⟨by simpa [detachCloneTree, treeIds] using h1, by simpa [detachCloneTree] using h2⟩

theorem forestIds_clone_lb (f : PForest) (n : ℕ) :
    (∀ i ∈ forestIds (detachCloneForest f n).1, n ≤ i) ∧ n ≤ (detachCloneForest f n).2 := by
  cases f with
  | nil => exact ⟨by simp [detachCloneForest, forestIds], by simp [detachCloneForest]⟩
  | cons k t r =>
      obtain ⟨ht, htc⟩ := treeIds_clone_lb t n
      obtain ⟨hr, hrc⟩ := forestIds_clone_lb r (detachCloneTree t n).2
      constructor
      · intro i hi
        simp only [detachCloneForest, forestIds, List.mem_append] at hi
        rcases hi with hi | hi
        · exact ht i hi
        · exact le_trans htc (hr i hi)
      · simp only [detachCloneForest]
        exact le_trans htc hrc
end

/-- C7: `deserialize(serialize())` restores the mixture weights and the nested
basis dictionary to numerically identical values (equal data, equal erasure),
re-attached as optimizable parameters (`requires_grad = true` everywhere),
while the serialized copy itself is detached (`requires_grad = false`
everywhere) and lives on storage disjoint from every live tensor of the
instance. -/
theorem serialize_deserialize_roundtrip (s : MState) (n : ℕ)
    (hfresh : ∀ i ∈ stateIds s, i < n) :
    (deserializeBSM s (serializeBSM s n).1).base_weights.data = s.base_weights.data ∧
    eraseTree (deserializeBSM s (serializeBSM s n).1).brdf_parameters
      = eraseTree s.brdf_parameters ∧
    (deserializeBSM s (serializeBSM s n).1).base_weights.grad = true ∧
    (∀ b ∈ treeGrads (deserializeBSM s (serializeBSM s n).1).brdf_parameters, b = true) ∧
    ((serializeBSM s n).1.1.grad = false ∧
      ∀ b ∈ treeGrads (serializeBSM s n).1.2, b = false) ∧
    (∀ i ∈ (serializeBSM s n).1.1.sid :: treeIds (serializeBSM s n).1.2,
      i ∉ stateIds s) := by
  refine ⟨rfl, ?_, rfl, ?_, ⟨rfl, ?_⟩, ?_⟩
  · show eraseTree (attachTree (detachCloneTree s.brdf_parameters (n + 1)).1)
      = eraseTree s.brdf_parameters
    rw [eraseTree_attach, eraseTree_clone]
  · intro b hb
    exact treeGrads_attach _ b hb
  · intro b hb
    exact treeGrads_clone _ _ b hb
  · intro i hi hmem
    have hlt : i < n := hfresh i hmem
    have hge : n ≤ i := by
      rcases List.mem_cons.mp hi with h | h
      · simp only [serializeBSM, detachCloneTen] at h
        omega
      · have := (treeIds_clone_lb s.brdf_parameters (n + 1)).1 i h
        omega
    omega

/-- Witness for `serialize_deserialize_roundtrip` on the concrete instance
`c7state` with fresh-identity counter 10. -/
theorem serialize_deserialize_roundtrip_witness :
    (∀ i ∈ stateIds c7state, i < 10) ∧
    ((deserializeBSM c7state (serializeBSM c7state 10).1).base_weights.data
        = c7state.base_weights.data ∧
      eraseTree (deserializeBSM c7state (serializeBSM c7state 10).1).brdf_parameters
        = eraseTree c7state.brdf_parameters ∧
      (deserializeBSM c7state (serializeBSM c7state 10).1).base_weights.grad = true ∧
      (∀ b ∈ treeGrads (deserializeBSM c7state (serializeBSM c7state 10).1).brdf_parameters,
        b = true) ∧
      ((serializeBSM c7state 10).1.1.grad = false ∧
        ∀ b ∈ treeGrads (serializeBSM c7state 10).1.2, b = false) ∧
      (∀ i ∈ (serializeBSM c7state 10).1.1.sid :: treeIds (serializeBSM c7state 10).1.2,
        i ∉ stateIds c7state)) :=
  ⟨by decide, serialize_deserialize_roundtrip c7state 10 (by decide)⟩

theorem clamp01R_nonneg (x : ℝ) : 0 ≤ clamp01R x := by
  unfold clamp01R
  rcases le_or_lt (max x 0) 1 with h | h
  · rw [min_eq_left h]; exact le_max_right x 0
  · rw [min_eq_right h.le]; norm_num

theorem clamp01R_le_one (x : ℝ) : clamp01R x ≤ 1 := min_le_right _ _

theorem clamp01R_idem (x : ℝ) : clamp01R (clamp01R x) = clamp01R x := by
  have h1 : max (clamp01R x) 0 = clamp01R x := max_eq_left (clamp01R_nonneg x)
  have h2 : min (clamp01R x) 1 = clamp01R x := min_eq_left (clamp01R_le_one x)
  calc clamp01R (clamp01R x) = min (max (clamp01R x) 0) 1 := rfl
    _ = clamp01R x := by rw [h1, h2]

/-- A zero cosine gives a zero Smith factor: the clamp leaves 0, the sine is 1,
the cotangent is 0, neither override fires, and the rational formula is 0. -/
theorem SmithG1_zero (a : ℝ) : SmithG1 0 a = 0 := by
  have hc : clamp01R 0 = 0 := by norm_num [clamp01R]
  simp only [SmithG1, hc]
  norm_num [Real.sqrt_one]

/-- C9: `SmithG1` clamps the cosine into `[0,1]` first; a cosine that was
negative before clamping yields exactly 0; the `sin = 0` entries and the
`x ≥ 1.6` entries yield exactly 1 (the threshold comparison is `prelims >= 1.6`
on the nose); on all remaining entries the value is the rational approximation
`(3.535x + 2.181x²)/(1 + 2.276x + 2.577x²)` at `x = cot(θ)/roughness`. -/
theorem smithG1_pieces (c a : ℝ) :
    SmithG1 c a = SmithG1 (clamp01R c) a ∧
    (c < 0 → SmithG1 c a = 0) ∧
    (Real.sqrt (1 - clamp01R c ^ 2) = 0 → SmithG1 c a = 1) ∧
    (1.6 ≤ (clamp01R c / Real.sqrt (1 - clamp01R c ^ 2)) / a → SmithG1 c a = 1) ∧
    (Real.sqrt (1 - clamp01R c ^ 2) ≠ 0 →
      (clamp01R c / Real.sqrt (1 - clamp01R c ^ 2)) / a < 1.6 →
      SmithG1 c a =
        (3.535 * ((clamp01R c / Real.sqrt (1 - clamp01R c ^ 2)) / a) +
          2.181 * ((clamp01R c / Real.sqrt (1 - clamp01R c ^ 2)) / a) ^ 2) /
        (1 + 2.276 * ((clamp01R c / Real.sqrt (1 - clamp01R c ^ 2)) / a) +
          2.577 * ((clamp01R c / Real.sqrt (1 - clamp01R c ^ 2)) / a) ^ 2)) := by
  refine ⟨by simp only [SmithG1, clamp01R_idem], ?_, ?_, ?_, ?_⟩
  · intro h
    have hc : clamp01R c = 0 := by
      unfold clamp01R
      rw [max_eq_right h.le]
      norm_num
    calc SmithG1 c a = SmithG1 (clamp01R c) a := by simp only [SmithG1, clamp01R_idem]
      _ = SmithG1 0 a := by rw [hc]
      _ = 0 := SmithG1_zero a
  · intro h
    simp only [SmithG1]
    split_ifs <;> rfl
  · intro h
    simp only [SmithG1]
    split_ifs <;> rfl
  · intro hs hx
    simp only [SmithG1]
    split_ifs with h1
    · exact absurd h1 (not_le.mpr hx)
    · rfl

/-- Witness for `smithG1_pieces`: the negative-cosine branch at `c = -1` and
the zero-sine branch at `c = 1` (where the clamped cosine is 1). -/
theorem smithG1_pieces_witness :
    ((-1 : ℝ) < 0 ∧ SmithG1 (-1) 1 = 0) ∧
    (Real.sqrt (1 - clamp01R 1 ^ 2) = 0 ∧ SmithG1 1 1 = 1) := by
  have hsq : Real.sqrt (1 - clamp01R 1 ^ 2) = 0 := by
    norm_num [clamp01R, Real.sqrt_zero]
  exact ⟨⟨by norm_num, (smithG1_pieces (-1) 1).2.1 (by norm_num)⟩,
    ⟨hsq, (smithG1_pieces 1 1).2.2.1 hsq⟩⟩

/-- C8 (amended): `Diffuse.calculate_rhos` returns `rhos` as one broadcast row
per point — shape N×1×3, the `view(-1, 1, 3)` of `diffuse / π` — whose entries
are the diffuse albedo over π, independent of the light and view directions,
together with `NdotHs = normal · normalize(L + V)` per point and light. -/
theorem diffuse_rhos_broadcast_row (Ls Ls' : List (List (List ℝ)))
    (Vs Vs' normals normals' : List (List ℝ)) (p : DiffuseParams) :
    (diffuseCalculateRhos Ls Vs normals p).1
        = p.diffuse.map (fun d => [d.map (fun x => x / Real.pi)]) ∧
    (diffuseCalculateRhos Ls Vs normals p).1 = (diffuseCalculateRhos Ls' Vs' normals' p).1 ∧
    (diffuseCalculateRhos Ls Vs normals p).2
        = List.zipWith (fun nrm Hrow => Hrow.map (fun H => innerProdR nrm H)) normals
            (List.zipWith (fun Lrow V => Lrow.map (fun L => normalizeR (vaddR L V))) Ls Vs) :=
  ⟨rfl, rfl, rfl⟩

/-- C8 counterexample: with 1 point and 2 lights and an all-zero diffuse
albedo, the unique N×L×3 tensor whose entries are `diffuse/π` is
`[[[0,0,0],[0,0,0]]]`, but `Diffuse.calculate_rhos` returns the N×1×3 tensor
`[[[0,0,0]]]` — `rhos` is not an N×L×3 tensor. -/
theorem diffuse_rhos_not_NxLx3_counterexample :
    (diffuseCalculateRhos [[[0, 0, 1], [1, 0, 0]]] [[0, 0, 1]] [[0, 0, 1]]
        ⟨[[0, 0, 0]]⟩).1 ≠ [[[0, 0, 0], [0, 0, 0]]] := by
  have h : (diffuseCalculateRhos [[[0, 0, 1], [1, 0, 0]]] [[0, 0, 1]] [[0, 0, 1]]
      ⟨[[0, 0, 0]]⟩).1 = [[[(0 : ℝ), 0, 0]]] := by
    simp [diffuseCalculateRhos, zero_div]
  rw [h]
  intro heq
  have hlen := congrArg (fun l => l.headI.length) heq
  simp at hlen

/-- C1: `CookTorrance.enforce_parameter_bounds` never completes normally: its
body reads the undefined name `params` (the bound argument is `parameters`),
so every call raises `NameError` and no field of the dictionary is projected. -/
theorem cookTorrance_enforce_bounds_raises (parameters : CTParams) :
    cookTorranceEnforceParameterBounds parameters
      = Except.error (PyErr.nameError "name params is not defined") := rfl

/-- C2: `CookTorranceF1.calculate_rhos` does not reproduce the `F = 1`
Cook-Torrance evaluation: its delegation drops the `parameters` argument (and
shifts the tensors into the `self` slot), so every call raises `TypeError`.
Its `get_parameter_count`, by contrast, does return the narrower specular map
`albedo: 3, roughness: 1` without the `eta` key of `CookTorrance`. -/
theorem cookTorranceF1_delegation_raises :
    cookTorranceF1CalculateRhos [[[0, 0, 1]]] [[0, 0, 1]] [[0, 0, 1]]
        ⟨[[1/2, 1/2, 1/2]], [[1, 1, 1]], [[1/2]], none⟩
      = Except.error (PyErr.typeError
          "calculate_rhos missing 2 required positional arguments: normals and parameters") ∧
    cookTorranceF1ParameterCount = (3, [("albedo", 3), ("roughness", 1)]) ∧
    "eta" ∈ cookTorranceParameterCount.2.map Prod.fst ∧
    "eta" ∉ cookTorranceF1ParameterCount.2.map Prod.fst :=
  ⟨rfl, rfl, by decide, by decide⟩

/-- Core of the C4 analysis, with the (finite, real) Fresnel and distribution
factors abstracted: when the clamped cosine product vanishes the Smith factor
is 0 and the IEEE quotient is `0/0 = NaN` (never an infinity); otherwise the
quotient is finite; the NaN guard maps NaN to 0; and adding the diffuse term
to the guarded value is always finite. -/
theorem ctGuardCore (a F D cL cV alpha dc : ℝ) :
    (cL * cV = 0 →
      fdivR (a * (F * D * (SmithG1 cL alpha * SmithG1 cV alpha)))
        (4 * Real.pi * (cL * cV)) = RFloat.nan) ∧
    ((∃ x, fdivR (a * (F * D * (SmithG1 cL alpha * SmithG1 cV alpha)))
        (4 * Real.pi * (cL * cV)) = RFloat.fin x) ∨
      fdivR (a * (F * D * (SmithG1 cL alpha * SmithG1 cV alpha)))
        (4 * Real.pi * (cL * cV)) = RFloat.nan) ∧
    (fdivR (a * (F * D * (SmithG1 cL alpha * SmithG1 cV alpha)))
        (4 * Real.pi * (cL * cV)) = RFloat.nan →
      nanGuard (fdivR (a * (F * D * (SmithG1 cL alpha * SmithG1 cV alpha)))
        (4 * Real.pi * (cL * cV))) = RFloat.fin 0) ∧
    (faddR dc (nanGuard (fdivR (a * (F * D * (SmithG1 cL alpha * SmithG1 cV alpha)))
        (4 * Real.pi * (cL * cV))))).isFinite := by
  have hnan : cL * cV = 0 →
      fdivR (a * (F * D * (SmithG1 cL alpha * SmithG1 cV alpha)))
        (4 * Real.pi * (cL * cV)) = RFloat.nan := by
    intro h
    have hnum : a * (F * D * (SmithG1 cL alpha * SmithG1 cV alpha)) = 0 := by
      rcases mul_eq_zero.mp h with h0 | h0
      · rw [h0, SmithG1_zero, zero_mul, mul_zero, mul_zero]
      · rw [h0, SmithG1_zero, mul_zero, mul_zero, mul_zero]
    rw [hnum, h, mul_zero]
    simp [fdivR]
  refine ⟨hnan, ?_, ?_, ?_⟩
  · by_cases hd : cL * cV = 0
    · exact Or.inr (hnan hd)
    · have hden : 4 * Real.pi * (cL * cV) ≠ 0 := mul_ne_zero (by positivity) hd
      exact Or.inl ⟨a * (F * D * (SmithG1 cL alpha * SmithG1 cV alpha)) /
        (4 * Real.pi * (cL * cV)), by simp [fdivR, hden]⟩
  · intro h
    rw [h]
    rfl
  · by_cases hd : cL * cV = 0
    · rw [hnan hd]
      exact trivial
    · have hden : 4 * Real.pi * (cL * cV) ≠ 0 := mul_ne_zero (by positivity) hd
      simp [fdivR, hden, nanGuard, faddR, RFloat.isFinite]

/-- C4: in `CookTorrance.calculate_rhos`, whenever the (clamped) denominator
product `NdotL·NdotV` vanishes, the Smith factor is 0, so the specular entry is
the IEEE quotient `0/0 = NaN` — never an infinity; the guard
`CTs[CTs != CTs] = 0` rewrites that NaN to 0 before the diffuse term is added,
and the resulting reflectance entry is always a finite value. -/
theorem cookTorrance_specular_nan_guard (NdotL NdotV NdotH VdotH albedo_c diffuse_c r : ℝ)
    (eta : Option ℝ)
    (hr : 1 / 1000000 ≤ r ∧ r ≤ 1 - 1 / 1000000) (hV : 0 ≤ VdotH)
    (halb : 0 ≤ albedo_c) (hdif : 0 ≤ diffuse_c)
    (heta : ∀ e ∈ eta, 1.0001 ≤ e ∧ e ≤ 2.999) :
    (clamp01R NdotL * clamp01R NdotV = 0 →
      cookTorranceCT NdotL NdotV NdotH VdotH albedo_c r eta = RFloat.nan) ∧
    ((∃ x, cookTorranceCT NdotL NdotV NdotH VdotH albedo_c r eta = RFloat.fin x) ∨
      cookTorranceCT NdotL NdotV NdotH VdotH albedo_c r eta = RFloat.nan) ∧
    (cookTorranceCT NdotL NdotV NdotH VdotH albedo_c r eta = RFloat.nan →
      nanGuard (cookTorranceCT NdotL NdotV NdotH VdotH albedo_c r eta) = RFloat.fin 0) ∧
    (cookTorranceRho NdotL NdotV NdotH VdotH albedo_c diffuse_c r eta).isFinite := by
  rcases eta with _ | e
  · exact ctGuardCore albedo_c 1 (GTR NdotH (r ^ 2)) (clamp01R NdotL) (clamp01R NdotV)
      (r ^ 2) (diffuse_c / Real.pi)
  · exact ctGuardCore albedo_c (Fresnel VdotH e) (GTR NdotH (r ^ 2)) (clamp01R NdotL)
      (clamp01R NdotV) (r ^ 2) (diffuse_c / Real.pi)

/-- Witness for `cookTorrance_specular_nan_guard`: a grazing light
(`NdotL = 0`), normal view, feasible roughness `1/2`, no `eta`. -/
theorem cookTorrance_specular_nan_guard_witness :
    ((1 : ℝ) / 1000000 ≤ 1 / 2 ∧ (1 : ℝ) / 2 ≤ 1 - 1 / 1000000) ∧
    (clamp01R 0 * clamp01R 1 = 0 →
      cookTorranceCT 0 1 1 1 1 (1 / 2) none = RFloat.nan) ∧
    (cookTorranceRho 0 1 1 1 1 1 (1 / 2) none).isFinite := by
  have h := cookTorrance_specular_nan_guard 0 1 1 1 1 1 (1 / 2) none
    ⟨by norm_num, by norm_num⟩ (by norm_num) (by norm_num) (by norm_num) (by simp)
  exact ⟨⟨by norm_num, by norm_num⟩, h.1, h.2.2.2⟩
